import Mathlib

/-!
Verification of the FLASHDeconv top-down deconvolution core (OpenMS).

This file gives a shallow embedding, over exact rational arithmetic, of the
code under verification:

* `FLASHDeconvHelperStructs.cpp` — the `PrecalculatedAveragine` constructor
  (isotope-pattern trimming), `massToIndex_`/`get`, the per-apex count
  accessors, `LogMzPeak` and `getLogMz`/`getChargeMass`/`getUnchargedMass`;
* `MassFeatureTrace.cpp` — the per-trace aggregation and accept/reject gates
  of `findFeatures`;
* `FLASHDeconv.cpp` (TOPP tool) — the per-spectrum loop skeleton (empty
  spectra are skipped) and the `last_deconvoluted_spectra` history buffer.

C++ `double` arithmetic is embedded as `ℚ`; `size_t` wrap-around is made
explicit where it matters (`sizeSubOne`).  Functions of the repository that
are only declared, not defined, in the available sources (the isotope
generator, `MassTraceDetection`, the cosine scoring functions, harmonic
suppression) are either taken as parameters or modelled from the spec; each
such definition says so in its doc comment.
-/

namespace FLASHDeconv

/-- C library `round`: round half away from zero, as used by
`PrecalculatedAveragine::massToIndex_`. -/
def roundHalfAway (x : ℚ) : ℤ :=
  if 0 ≤ x then ⌊x + 1/2⌋ else -⌊-x + 1/2⌋

/-- Sum of squared intensities, the "total power" of an isotope pattern
(`FLASHDeconvHelperStructs.cpp`, lines 77-86). -/
def sumSq (l : List ℚ) : ℚ := (l.map (fun a => a * a)).sum

/-- The most-abundant scan of the constructor (lines 72-86): running maximum
with `if (most_abundant_int >= iso[k]) continue;`, so the FIRST index of the
maximum intensity wins and both accumulators start at 0.  Returns
`(most_abundant_int, most_abundant_index_)`. -/
def mostAbundant (iso : List ℚ) : ℚ × ℕ :=
  iso.enum.foldl (fun s kv => if s.1 ≥ kv.2 then s else (kv.2, kv.1)) (0, 0)

/-- Constant `min_pwr = .9999` of the constructor (line 68). -/
def minPwr : ℚ := 9999/10000

/-- State of the trimming loop of the `PrecalculatedAveragine` constructor
(lines 88-123): `left`/`right` are `left_count`/`right_count`, `trimCount`
is `trim_count`, `totalPwr` is the running `total_pwr`, and `iso` is the
intensity vector (trimmed positions are set to 0, as in the source).  The
source holds `right_count` in an `int`; its value is `iso.size() - 1`
initially and only ever decreases while still above `left_count >= 0`, so it
stays in `[0, size-1]` whenever the loop body runs, and `ℕ` with truncated
subtraction is faithful (for `iso = []`, where C++ starts at `-1`, the loop
never runs either way, and the constructor clamps the derived per-apex
counts to the same value 2). -/
structure TrimState where
  left : ℕ
  right : ℕ
  trimCount : ℕ
  totalPwr : ℚ
  iso : List ℚ
  deriving Repr, DecidableEq

/-- The power `pwr` removed by one trim (lines 94-106): the square of the
smaller of the two boundary intensities (`lint < rint` selects the left). -/
def trimPwr (s : TrimState) : ℚ :=
  if s.iso.getD s.left 0 < s.iso.getD s.right 0 then
    s.iso.getD s.left 0 * s.iso.getD s.left 0
  else s.iso.getD s.right 0 * s.iso.getD s.right 0

/-- One executed trim (lines 111-122): deduct `pwr`, count the trim, zero the
trimmed boundary intensity and advance the corresponding boundary
(`trim_left` is exactly `lint < rint`). -/
def trimStep (s : TrimState) : TrimState :=
  if s.iso.getD s.left 0 < s.iso.getD s.right 0 then
    ⟨s.left + 1, s.right, s.trimCount + 1, s.totalPwr - trimPwr s, s.iso.set s.left 0⟩
  else
    ⟨s.left, s.right - 1, s.trimCount + 1, s.totalPwr - trimPwr s, s.iso.set s.right 0⟩

/-- One-for-one embedding of the `while` loop (lines 92-123): run while more
than `min_iso_length = 2` isotopes remain and `left_count < right_count`,
and break when removing `pwr` would leave less than `min_pwr` of the current
`total_pwr` (line 107).  `fuel` bounds the number of iterations; since every
iteration shrinks `right - left` by one, `iso.length` iterations always
suffice. -/
def trimGo : ℕ → TrimState → TrimState
  | 0, s => s
  | fuel + 1, s =>
    if s.iso.length - s.trimCount ≤ 2 then s
    else if s.right ≤ s.left then s
    else if s.totalPwr - trimPwr s < s.totalPwr * minPwr then s
    else trimGo fuel (trimStep s)

/-- The trimming pass on one isotope distribution: initial state as set up in
lines 88-90 (`left_count = 0`, `right_count = iso.size() - 1`,
`trim_count = 0`, `total_pwr` the full power). -/
def trimIsotopes (iso : List ℚ) : TrimState :=
  trimGo iso.length ⟨0, iso.length - 1, 0, sumSq iso, iso⟩

/-- Modelled from the spec: `IsotopeDistribution::trimRight(1e-10)` (line
126; its implementation is outside the available sources) removes the
trailing isotopes whose intensity is below the cutoff. -/
def trimRightList (cutoff : ℚ) (l : List ℚ) : List ℚ :=
  (l.reverse.dropWhile (fun a => a < cutoff)).reverse

/-- One table entry of the precalculated averagine (lines 136-141).
`isotopes` holds the trimmed intensities before the final rescaling; the
source divides every intensity by `sqrt(totalPwr)` (an irrational factor),
hence the divisor's square is carried alongside instead. -/
structure AveragineEntry where
  apexIndex : ℕ
  leftCountFromApex : ℤ
  rightCountFromApex : ℤ
  isotopes : List ℚ
  totalPwr : ℚ
  deriving Repr, DecidableEq

/-- Per-grid-mass body of the constructor (lines 68-141): most-abundant scan,
trimming loop, re-basing of the counts at the apex (lines 124-125),
`trimRight`, and the final clamping `x < 2 ? 2 : x` (lines 133-134). -/
def mkEntry (iso : List ℚ) : AveragineEntry :=
  let apex := (mostAbundant iso).2
  let t := trimIsotopes iso
  let leftC : ℤ := (apex : ℤ) - (t.left : ℤ)
  let rightC : ℤ := (t.right : ℤ) - (apex : ℤ)
  { apexIndex := apex
    leftCountFromApex := if leftC < 2 then 2 else leftC
    rightCountFromApex := if rightC < 2 then 2 else rightC
    isotopes := trimRightList (1/10^10) t.iso
    totalPwr := t.totalPwr }

/-- Grid-mass enumeration of the constructor (lines 50-62): `i` starts at 0,
`mass = i * delta`; masses below `min` are skipped (`continue`), the loop
breaks at the first mass above `max`.  The C++ loop is unbounded
(`while (true)`); `fuel` bounds the iteration count, and any
`fuel > maxMass / delta` (with `delta > 0`) reproduces the loop exactly. -/
def gridMasses (minMass maxMass delta : ℚ) : ℕ → ℕ → List ℚ
  | 0, _ => []
  | fuel + 1, i =>
    let mass := (i : ℚ) * delta
    if mass < minMass then gridMasses minMass maxMass delta fuel (i + 1)
    else if mass > maxMass then []
    else mass :: gridMasses minMass maxMass delta fuel (i + 1)

/-- The `PrecalculatedAveragine` object: `mass_interval_`, `min_mass_` and
the parallel per-entry vectors (held here as one list of entries). -/
structure PrecalculatedAveragine where
  minMass : ℚ
  massInterval : ℚ
  entries : List AveragineEntry
  deriving Repr, DecidableEq

/-- The constructor `PrecalculatedAveragine::PrecalculatedAveragine` (lines
42-143).  `gen` abstracts `CoarseIsotopePatternGenerator::estimateFrom*`
(whose implementation is outside the available sources): it yields the
isotope intensity list for a grid mass. -/
def PrecalculatedAveragine.build (minMass maxMass delta : ℚ) (gen : ℚ → List ℚ)
    (fuel : ℕ) : PrecalculatedAveragine :=
  { minMass := minMass
    massInterval := delta
    entries := (gridMasses minMass maxMass delta fuel 0).map (fun m => mkEntry (gen m)) }

/-- Model of the C++ `size_t` expression `n - 1` (64-bit, wraps at 0), as in
`std::min(i, isotopes_.size() - 1)` of `massToIndex_` (line 148). -/
def sizeSubOne (n : ℕ) : ℕ := (n + 2 ^ 64 - 1) % 2 ^ 64

/-- `PrecalculatedAveragine::massToIndex_` (lines 145-150):
`i = (Size) round(max(.0, mass - min_mass_) / mass_interval_)` followed by
`i = min(i, isotopes_.size() - 1)`. -/
def massToIndex (A : PrecalculatedAveragine) (mass : ℚ) : ℕ :=
  let i := (roundHalfAway (max 0 (mass - A.minMass) / A.massInterval)).toNat
  min i (sizeSubOne A.entries.length)

/-- `PrecalculatedAveragine::get` (lines 152-155); the C++ `isotopes_[i]`
indexing is made total with an `Option`, `none` marking an out-of-range
access (undefined behaviour in the source). -/
def PrecalculatedAveragine.get? (A : PrecalculatedAveragine) (mass : ℚ) :
    Option AveragineEntry :=
  A.entries.get? (massToIndex A mass)

/-- `PrecalculatedAveragine::getLeftCountFromApex` (lines 162-165). -/
def getLeftCountFromApex? (A : PrecalculatedAveragine) (mass : ℚ) : Option ℤ :=
  (A.entries.get? (massToIndex A mass)).map (fun e => e.leftCountFromApex)

/-- `PrecalculatedAveragine::getRightCountFromApex` (lines 177-180). -/
def getRightCountFromApex? (A : PrecalculatedAveragine) (mass : ℚ) : Option ℤ :=
  (A.entries.get? (massToIndex A mass)).map (fun e => e.rightCountFromApex)

/-- Written from the spec's words, for comparison with `massToIndex`
(spec §4.1: "`get(mass)` returns the nearest template by
`index = clamp(round((mass - minMass) / massStep))`"): round first, then
clamp into the valid index range `[0, n-1]`. -/
def specClampRoundIndex (minMass delta : ℚ) (n : ℕ) (mass : ℚ) : ℕ :=
  (min (max (roundHalfAway ((mass - minMass) / delta)) 0) ((n : ℤ) - 1)).toNat

/-- `FLASHDeconvHelperStructs::getChargeMass` (lines 245-248):
`positive ? PROTON_MASS_U : -PROTON_MASS_U`.  The proton mass constant
(defined in the excluded `Constants` header) is the parameter `pm`. -/
def getChargeMass (pm : ℚ) (positive : Bool) : ℚ :=
  if positive then pm else -pm

/-- `FLASHDeconvHelperStructs::getLogMz` (lines 251-254):
`log(mz - getChargeMass(positive))`.  The transcendental `log` is the
abstract parameter `lg`. -/
def getLogMz (lg : ℚ → ℚ) (pm : ℚ) (mz : ℚ) (positive : Bool) : ℚ :=
  lg (mz - getChargeMass pm positive)

/-- `FLASHDeconvHelperStructs::LogMzPeak` (header under `ANALYSIS/TOPDOWN`;
constructor at lines 199-207 of the cpp).  `mass` is the memoization field
read by `getUnchargedMass`; its in-class initializer (header not among the
available sources) is 0, which is what lines 209-220 rely on. -/
structure LogMzPeak where
  mz : ℚ
  intensity : ℚ
  logMz : ℚ
  absCharge : ℕ
  isPositive : Bool
  isotopeIndex : ℤ
  mass : ℚ
  deriving Repr, DecidableEq

/-- The `LogMzPeak(const Peak1D&, const bool)` constructor (lines 199-207):
charge and isotope index start unassigned (0), `logMz` is derived. -/
def LogMzPeak.mk0 (lg : ℚ → ℚ) (pm : ℚ) (mz intensity : ℚ) (positive : Bool) :
    LogMzPeak :=
  { mz := mz
    intensity := intensity
    logMz := getLogMz lg pm mz positive
    absCharge := 0
    isPositive := positive
    isotopeIndex := 0
    mass := 0 }

/-- `LogMzPeak::getUnchargedMass` (lines 209-220): 0 for unassigned charge;
otherwise computes and memoizes `(mz - getChargeMass(is_positive)) * abs_charge`.
Returns the value together with the updated peak. -/
def LogMzPeak.getUnchargedMass (pm : ℚ) (p : LogMzPeak) : ℚ × LogMzPeak :=
  if p.absCharge = 0 then (0, p)
  else if p.mass ≤ 0 then
    let m := (p.mz - getChargeMass pm p.isPositive) * (p.absCharge : ℚ)
    (m, { p with mass := m })
  else (p.mass, p)

/-- Input spectrum for the TOPP-tool loop: its peak list and MS level
(`FLASHDeconv.cpp`; only emptiness and the level drive the control flow
modelled here). -/
structure SpecIn where
  peaks : List (ℚ × ℚ)
  msLevel : ℕ
  deriving Repr, DecidableEq

/-- Skeleton of the per-spectrum loop of `TOPPFLASHDeconv` (`FLASHDeconv.cpp`
lines 692-699): `if (it->empty()) continue;` — an empty spectrum is skipped
before any deconvolution work, contributing nothing to the output stream;
every other spectrum is handed to the deconvolver `d` in order. -/
def processSpectra {α : Type} (d : SpecIn → α) : List SpecIn → List α
  | [] => []
  | s :: rest =>
    if s.peaks.isEmpty then processSpectra d rest
    else d s :: processSpectra d rest

/-- The `last_deconvoluted_spectra` history: an
`unordered_map<UInt, vector<DeconvolutedSpectrum>>` modelled as an
association list in insertion order (`eraseBegin` below only matters when
the map holds a single key, where iteration order is irrelevant).  Spectra
are identified by labels `σ`. -/
abbrev SpectraBuffer (σ : Type) : Type := List (ℕ × List σ)

/-- Lookup of `buf[level]` (an absent key reads as the empty vector, as
`operator[]` default-constructs). -/
def bufGet {σ : Type} (buf : SpectraBuffer σ) (level : ℕ) : List σ :=
  match buf.find? (fun kv => kv.1 = level) with
  | some kv => kv.2
  | none => []

/-- The map update `last_deconvoluted_spectra[ms_level].push_back(spec)`:
append to the existing entry, or insert a fresh one (at the end, as the
model's iteration order is insertion order). -/
def bufPush {σ : Type} (buf : SpectraBuffer σ) (level : ℕ) (spec : σ) :
    SpectraBuffer σ :=
  match buf with
  | [] => [(level, [spec])]
  | kv :: rest =>
    if kv.1 = level then (kv.1, kv.2 ++ [spec]) :: rest
    else kv :: bufPush rest level spec

/-- `last_deconvoluted_spectra.erase(last_deconvoluted_spectra.begin())`
(line 784): erases one whole key/vector pair of the map — the first in
iteration order — not an element of any vector. -/
def eraseBegin {σ : Type} (buf : SpectraBuffer σ) : SpectraBuffer σ :=
  buf.tail

/-- The history maintenance of `TOPPFLASHDeconv` (lines 778-785), run when
`ms_level < current_max_ms_level`: if the level's vector already holds at
least `K = preceding_MS1_count` entries, `erase(begin())` is executed (on
the MAP), then the new spectrum is pushed onto the level's vector. -/
def publishSpectrum {σ : Type} (K : ℕ) (buf : SpectraBuffer σ) (level : ℕ)
    (spec : σ) : SpectraBuffer σ :=
  let buf1 := if K ≤ (bufGet buf level).length then eraseBegin buf else buf
  bufPush buf1 level spec

/-- A run of publishes in spectrum order. -/
def publishRun {σ : Type} (K : ℕ) (events : List (ℕ × σ)) : SpectraBuffer σ :=
  events.foldl (fun buf ev => publishSpectrum K buf ev.1 ev.2) []

/-- Written from the spec's words, for comparison with `publishSpectrum`
(spec §5: a "ring buffer of depth K" per MS level): when the level's buffer
is full, only that level's OLDEST entry is evicted. -/
def specRingPublish {σ : Type} (K : ℕ) (buf : SpectraBuffer σ) (level : ℕ)
    (spec : σ) : SpectraBuffer σ :=
  let v := bufGet buf level
  let v1 := if K ≤ v.length then v.tail ++ [spec] else v ++ [spec]
  match buf.find? (fun kv => kv.1 = level) with
  | some _ => buf.map (fun kv => if kv.1 = level then (kv.1, v1) else kv)
  | none => buf ++ [(level, v1)]

/-- A run of spec-side ring-buffer publishes. -/
def specRingRun {σ : Type} (K : ℕ) (events : List (ℕ × σ)) : SpectraBuffer σ :=
  events.foldl (fun buf ev => specRingPublish K buf ev.1 ev.2) []

/-- A member peak of a `PeakGroup`, with the fields `MassFeatureTrace::findFeatures`
reads (`p.mz`, `p.intensity`, `p.charge`, `p.isotopeIndex`). -/
structure LMP where
  mz : ℚ
  intensity : ℚ
  charge : ℤ
  isotopeIndex : ℤ
  deriving Repr, DecidableEq

/-- A `PeakGroup` as consumed by `MassFeatureTrace::findFeatures`:
monoisotopic and average mass, summed intensity, observed charge range, and
its member peaks. -/
structure TracePG where
  monoisotopicMass : ℚ
  avgMass : ℚ
  intensity : ℚ
  minCharge : ℤ
  maxCharge : ℤ
  peaks : List LMP
  deriving Repr, DecidableEq

/-- The `Parameter` fields `findFeatures` reads: `minCharge`, `chargeRange`,
`maxIsotopeCount` (array extents) and the two cosine thresholds. -/
structure FTParams where
  minCharge : ℕ
  chargeRange : ℕ
  maxIsotopeCount : ℕ
  minChargeCosine : ℚ
  minIsotopeCosine : ℚ
  deriving Repr, DecidableEq

/-- The per-peak bounds filter of the aggregation loop
(`MassFeatureTrace.cpp` lines 116-120): a peak is skipped when
`p.isotopeIndex < 0 || p.isotopeIndex >= maxIsotopeCount || p.charge < 0 ||
p.charge >= chargeRange + minCharge + 1`. -/
def peakInBounds (P : FTParams) (p : LMP) : Bool :=
  decide (0 ≤ p.isotopeIndex) && decide (p.isotopeIndex < (P.maxIsotopeCount : ℤ)) &&
  decide (0 ≤ p.charge) && decide (p.charge < ((P.chargeRange : ℤ) + (P.minCharge : ℤ) + 1))

/-- One bin of `perChargeIntensity` (lines 125-126): the summed intensity of
all in-bounds member peaks of charge `c` across the trace's `PeakGroup`s. -/
def chargeBinSum (P : FTParams) (pgs : List TracePG) (c : ℤ) : ℚ :=
  (pgs.map (fun pg =>
    ((pg.peaks.filter (fun p => peakInBounds P p && p.charge == c)).map
      (fun p => p.intensity)).sum)).sum

/-- The aggregated per-charge intensity array `perChargeIntensity`
(length `chargeRange + minCharge + 1`, filled at line 126). -/
def perChargeVec (P : FTParams) (pgs : List TracePG) : List ℚ :=
  (List.range (P.chargeRange + P.minCharge + 1)).map
    (fun c => chargeBinSum P pgs (c : ℤ))

/-- One bin of `perIsotopeIntensity` (line 127). -/
def isotopeBinSum (P : FTParams) (pgs : List TracePG) (i : ℤ) : ℚ :=
  (pgs.map (fun pg =>
    ((pg.peaks.filter (fun p => peakInBounds P p && p.isotopeIndex == i)).map
      (fun p => p.intensity)).sum)).sum

/-- The aggregated per-isotope intensity array `perIsotopeIntensity`
(length `maxIsotopeCount`, filled at line 127). -/
def perIsotopeVec (P : FTParams) (pgs : List TracePG) : List ℚ :=
  (List.range P.maxIsotopeCount).map (fun i => isotopeBinSum P pgs (i : ℤ))

/-- The `charges` bitset count (lines 88, 125, 181): the number of distinct
charges carried by some in-bounds peak of the trace. -/
def distinctChargeCount (P : FTParams) (pgs : List TracePG) : ℕ :=
  ((List.range (P.chargeRange + P.minCharge + 1)).filter
    (fun c => pgs.any (fun pg =>
      pg.peaks.any (fun p => peakInBounds P p && p.charge == (c : ℤ))))).length

/-- The maximum-intensity scan of lines 93-110: `max_intensity` starts at
`-1`, `massDiff` at 0, and `massDiff` is set to `avgMass - monoisotopicMass`
of each member whose intensity strictly exceeds the running maximum (so the
first member attaining the maximum wins). -/
def maxIntensityMassDiff (pgs : List TracePG) : ℚ :=
  (pgs.foldl (fun s pg =>
    if pg.intensity > s.1 then (pg.intensity, pg.avgMass - pg.monoisotopicMass) else s)
    ((-1 : ℚ), (0 : ℚ))).2

/-- The observed charge-range folds of lines 86-87 and 102-103. -/
def traceChargeRange (P : FTParams) (pgs : List TracePG) : ℤ × ℤ :=
  pgs.foldl (fun s pg =>
    (if s.1 < pg.minCharge then s.1 else pg.minCharge,
     if s.2 > pg.maxCharge then s.2 else pg.maxCharge))
    (((P.chargeRange : ℤ) + (P.minCharge : ℤ) + 1), 0)

/-- A feature row as written to the feature stream (lines 168-183).  The
columns coming solely from the external `MassTrace` object (trace size,
trace length, apex RT, max intensity) are not tracked by the claims and are
omitted. -/
structure Feature where
  monoMass : ℚ
  avgMass : ℚ
  rtStart : ℚ
  rtEnd : ℚ
  minCharge : ℤ
  maxCharge : ℤ
  chargeCount : ℕ
  isoScore : ℚ
  chargeScore : ℚ
  deriving Repr, DecidableEq

/-- The collaborators of `findFeatures` whose definitions are not among the
available sources (only their call sites are): the charge-fit score
`SpectrumDeconvolution::getChargeFitScore`, the isotope-cosine score
`SpectrumDeconvolution::getIsotopeCosineAndDetermineIsotopeIndex` (returning
the score and the isotope-index offset), `MassTrace::getCentroidMZ`, and the
constant `Constants::C13C12_MASSDIFF_U`. -/
structure TraceExternals where
  chargeFit : List ℚ → ℚ
  isoCosine : ℚ → List ℚ → ℚ × ℤ
  centroid : List (ℚ × TracePG) → ℚ
  c13c12 : ℚ

/-- The per-trace body of `MassFeatureTrace::findFeatures` (lines 84-184); a
trace is a retention-time-ordered list of `(RT, PeakGroup)` members.  The
gates appear in source order: `massDiff <= 0` (line 139), charge-fit score
below `minChargeCosine` (line 145), isotope-cosine score below
`minIsotopeCosine` (line 156); each failing trace is dropped (`continue`)
with no output and no error.  `MassTraceDetection` never produces an empty
trace; on `[]` (where `mt.begin()->getRT()` would be undefined) the model
returns `none`. -/
def processTrace (P : FTParams) (E : TraceExternals) (mt : List (ℚ × TracePG)) :
    Option Feature :=
  match mt with
  | [] => none
  | first :: rest =>
    let pgs := (first :: rest).map Prod.snd
    let massDiff := maxIntensityMassDiff pgs
    if massDiff ≤ 0 then none
    else
      let chargeScore := E.chargeFit (perChargeVec P pgs)
      if chargeScore < P.minChargeCosine then none
      else
        let mass0 := E.centroid (first :: rest)
        let r := E.isoCosine mass0 (perIsotopeVec P pgs)
        if r.1 < P.minIsotopeCosine then none
        else
          let mass := if r.2 ≠ 0 then mass0 + (r.2 : ℚ) * E.c13c12 else mass0
          let cr := traceChargeRange P pgs
          some { monoMass := mass
                 avgMass := mass + massDiff
                 rtStart := first.1
                 rtEnd := (rest.getLastD first).1
                 minCharge := cr.1
                 maxCharge := cr.2
                 chargeCount := distinctChargeCount P pgs
                 isoScore := r.1
                 chargeScore := chargeScore }

/-- `findFeatures` over the detected traces: each trace either yields one
feature row or is dropped silently. -/
def findFeaturesOut (P : FTParams) (E : TraceExternals)
    (traces : List (List (ℚ × TracePG))) : List Feature :=
  traces.filterMap (processTrace P E)

/-- Modelled from the spec (§4.3 step 1); `MassTraceDetection::run` is not
among the available sources.  Mass closeness of two points, a ppm window. -/
def ppmClose (tol : ℚ) (a b : ℚ) : Bool :=
  decide (|a - b| * 1000000 ≤ tol * b)

/-- Modelled from the spec (§4.3 step 1): group consecutive-in-RT points
into a trace whenever neighbouring masses lie within the ppm tolerance. -/
def groupTraces (tol : ℚ) : List (ℚ × TracePG) → List (List (ℚ × TracePG))
  | [] => []
  | p :: ps =>
    match groupTraces tol ps with
    | [] => [[p]]
    | [] :: rest => [p] :: [] :: rest
    | (q :: qs) :: rest =>
      if ppmClose tol p.2.monoisotopicMass q.2.monoisotopicMass then
        (p :: q :: qs) :: rest
      else [p] :: (q :: qs) :: rest

/-- Retention-time span of a trace (first to last member). -/
def traceSpan : List (ℚ × TracePG) → ℚ
  | [] => 0
  | first :: rest => (rest.getLastD first).1 - first.1

/-- Modelled from the spec (§4.3 step 1): the detection stage, grouping plus
the minimum-RT-span gate (the minimum-sample-rate gate plays no role for the
inputs of the claims and is not modelled). -/
def massTraceDetect (tol minSpan : ℚ) (pts : List (ℚ × TracePG)) :
    List (List (ℚ × TracePG)) :=
  (groupTraces tol pts).filter (fun mt => decide (minSpan ≤ traceSpan mt))

/-- Modelled from the spec: `SpectrumDeconvolution`'s harmonic suppression
(§4.2 step 3; `harmonicFilter`/`hBinOffsets` are only declared, not defined,
in the available sources).  Spec: "also compute support at integer
sub-multiples of each candidate mass (mass/2, mass/3, …); a candidate whose
dominant support is explained by a harmonic is deprioritized/rejected" — a
candidate `m` is rejected when some integer multiple `k * m` (`2 ≤ k ≤ maxK`)
is itself a candidate whose support dominates the support of `m`. -/
def harmonicSuppress (maxK : ℕ) (sup : ℚ → ℚ) (cands : List ℚ) : List ℚ :=
  cands.filter (fun m =>
    !((List.range (maxK + 1)).any (fun k =>
      decide (2 ≤ k) && decide ((m * (k : ℚ)) ∈ cands) &&
        decide (sup m ≤ sup (m * (k : ℚ))))))

/-- Concrete PeakGroup for the C4 witness: monoisotopic mass 100, average
mass 101, summed intensity 1, charges 17-18. -/
def c4pg : TracePG := ⟨100, 101, 1, 17, 18, []⟩

/-- Concrete collaborators for the C4 witness: constant (hence
scale-invariant) scoring functions and the head-mass centroid. -/
def c4ext : TraceExternals where
  chargeFit := fun _ => 1
  isoCosine := fun _ _ => (1, 0)
  centroid := fun mt => (mt.map (fun q => q.2.monoisotopicMass)).headD 0
  c13c12 := 1

/-! ## Theorems -/

/-- C5.  A spectrum with zero peaks is skipped by the per-spectrum loop
(`FLASHDeconv.cpp` lines 696-699, `if (it->empty()) continue;`): it
contributes no PeakGroups to any output (on its own it yields the empty
output list), the remaining spectra of the run are processed exactly as if
the empty spectrum were absent, and — the model being a total function — no
exception is raised. -/
theorem claim_C5 {α : Type} (d : SpecIn → α) (pre post : List SpecIn) (s : SpecIn)
    (h : s.peaks = []) :
    processSpectra d (pre ++ s :: post) = processSpectra d (pre ++ post) ∧
    processSpectra d [s] = [] := by
  have hs : s.peaks.isEmpty = true := by rw [h]; rfl
  constructor
  · induction pre with
    | nil => simp [processSpectra, hs]
    | cons a l ih =>
      by_cases ha : a.peaks.isEmpty <;> simp [processSpectra, ha, ih]
  · simp [processSpectra, hs]

/-- Witness for C5 at a concrete three-spectrum run. -/
theorem claim_C5_witness :
    processSpectra (fun s => s.msLevel)
        ([⟨[(1, 1)], 1⟩] ++ (⟨[], 1⟩ : SpecIn) :: [⟨[(2, 2)], 1⟩]) =
      processSpectra (fun s => s.msLevel) ([⟨[(1, 1)], 1⟩] ++ [⟨[(2, 2)], 1⟩]) ∧
    processSpectra (fun s => s.msLevel) [(⟨[], 1⟩ : SpecIn)] = [] :=
  claim_C5 (fun s => s.msLevel) [⟨[(1, 1)], 1⟩] [⟨[(2, 2)], 1⟩] ⟨[], 1⟩ rfl

/-- C8.  Every `LogMzPeak` built by the constructor stores
`logMz = log(mz - carrierMass)` with `carrierMass = +protonMass` in positive
and `-protonMass` in negative mode; with an assigned charge `c > 0`,
`getUnchargedMass` returns `(mz - carrierMass) * c`, and with unassigned
charge (`c = 0`) it returns 0 (`FLASHDeconvHelperStructs.cpp` lines 199-220,
245-254). -/
theorem claim_C8 (lg : ℚ → ℚ) (pm mz intensity : ℚ) (pos : Bool) (c : ℕ) :
    ({ LogMzPeak.mk0 lg pm mz intensity pos with absCharge := c } : LogMzPeak).logMz =
      lg (mz - (if pos then pm else -pm)) ∧
    (0 < c →
      (({ LogMzPeak.mk0 lg pm mz intensity pos with absCharge := c } :
          LogMzPeak).getUnchargedMass pm).1 = (mz - (if pos then pm else -pm)) * (c : ℚ)) ∧
    (c = 0 →
      (({ LogMzPeak.mk0 lg pm mz intensity pos with absCharge := c } :
          LogMzPeak).getUnchargedMass pm).1 = 0) := by
  refine ⟨rfl, fun hc => ?_, fun hc => ?_⟩
  · have hne : c ≠ 0 := Nat.pos_iff_ne_zero.mp hc
    simp [LogMzPeak.getUnchargedMass, LogMzPeak.mk0, getChargeMass, hne]
  · simp [LogMzPeak.getUnchargedMass, LogMzPeak.mk0, hc]

/-- Witness for C8 at a concrete peak (positive mode, charge 3, and the
unassigned-charge case via charge 0 of the same peak). -/
theorem claim_C8_witness :
    ({ LogMzPeak.mk0 (fun q => q) 1 5 2 true with absCharge := 3 } : LogMzPeak).logMz =
      (fun q => q) (5 - (if true then (1 : ℚ) else -1)) ∧
    (0 < 3 →
      (({ LogMzPeak.mk0 (fun q => q) 1 5 2 true with absCharge := 3 } :
          LogMzPeak).getUnchargedMass 1).1 = (5 - (if true then (1 : ℚ) else -1)) * (3 : ℚ)) ∧
    (3 = 0 →
      (({ LogMzPeak.mk0 (fun q => q) 1 5 2 true with absCharge := 3 } :
          LogMzPeak).getUnchargedMass 1).1 = 0) :=
  claim_C8 (fun q => q) 1 5 2 true 3

/-- C9 (modelled from the spec, see `harmonicSuppress`).  When a spectrum
supports both a mass `m` and its half `m/2` and the evidence for `m`
dominates, the harmonic-suppression pass does not report `m/2` as an
independent candidate. -/
theorem claim_C9 (maxK : ℕ) (sup : ℚ → ℚ) (cands : List ℚ) (m mHalf : ℚ)
    (_hhalf : mHalf ∈ cands) (hm : m ∈ cands) (hrel : m = mHalf * 2)
    (hdom : sup mHalf ≤ sup m) (hK : 2 ≤ maxK) :
    mHalf ∉ harmonicSuppress maxK sup cands := by
  intro hmem
  rw [harmonicSuppress, List.mem_filter] at hmem
  have hany : ((List.range (maxK + 1)).any (fun k =>
      decide (2 ≤ k) && decide ((mHalf * (k : ℚ)) ∈ cands) &&
        decide (sup mHalf ≤ sup (mHalf * (k : ℚ))))) = true := by
    rw [List.any_eq_true]
    refine ⟨2, List.mem_range.mpr (by omega), ?_⟩
    simp only [Bool.and_eq_true, decide_eq_true_eq]
    have hc2 : ((2 : ℕ) : ℚ) = (2 : ℚ) := by norm_num
    rw [hc2, ← hrel]
    exact ⟨⟨le_refl 2, hm⟩, hdom⟩
  have hneg := hmem.2
  rw [Bool.not_eq_true'] at hneg
  rw [hneg] at hany
  simp at hany

/-- Witness for C9: support 10 for mass 10 dominates support 5 for mass 5;
mass 5 is suppressed. -/
theorem claim_C9_witness : (5 : ℚ) ∉ harmonicSuppress 3 (fun x => x) [10, 5] :=
  claim_C9 3 (fun x => x) [10, 5] 10 5 (by decide) (by decide) (by norm_num)
    (by norm_num) (by norm_num)

/-- C6 (code bug).  Evaluation of the history maintenance at the failing
input: `preceding_MS1_count = 2` and three MS1 spectra `1, 2, 3` published
in order.  On the third publish the guard finds the level-1 vector full, but
`last_deconvoluted_spectra.erase(last_deconvoluted_spectra.begin())`
(`FLASHDeconv.cpp` line 784) erases the entire map entry — the whole stored
history of the level — so the buffer ends as `[3]` alone, whereas evicting
only the oldest entry of the level (the spec's ring buffer of depth K,
`specRingPublish`) ends with `[2, 3]`. -/
theorem claim_C6_eval :
    publishRun 2 [(1, 1), (1, 2), (1, 3)] = [(1, [3])] ∧
    specRingRun 2 [(1, 1), (1, 2), (1, 3)] = [(1, [2, 3])] ∧
    publishRun 2 [(1, 1), (1, 2), (1, 3)] ≠ specRingRun 2 [(1, 1), (1, 2), (1, 3)] := by
  refine ⟨by decide, by decide, by decide⟩

/-- With `maxMass < minMass` the grid-mass loop emits nothing: every mass is
either below `minMass` (skipped) or above `maxMass` (loop break). -/
theorem gridMasses_eq_nil {minM maxM delta : ℚ} (h : maxM < minM) :
    ∀ fuel i, gridMasses minM maxM delta fuel i = [] := by
  intro fuel
  induction fuel with
  | zero => intro i; rfl
  | succ f ih =>
    intro i
    show (if (i : ℚ) * delta < minM then gridMasses minM maxM delta f (i + 1)
      else if (i : ℚ) * delta > maxM then []
      else (i : ℚ) * delta :: gridMasses minM maxM delta f (i + 1)) = []
    by_cases hlt : (i : ℚ) * delta < minM
    · rw [if_pos hlt]; exact ih (i + 1)
    · rw [if_neg hlt, if_pos (lt_of_lt_of_le h (not_lt.mp hlt))]

/-- C7 counterexample.  Building the averagine table with
`maxMass = 1 < 2 = minMass` is NOT rejected: the constructor silently
produces an empty table, and a subsequent `get(5)` computes index 3 — the
`std::min(i, isotopes_.size() - 1)` clamp is inert because `size() - 1`
wraps to `2^64 - 1` on the empty table — so the lookup is out of range
(`none` in the model, undefined behaviour in the source). -/
theorem claim_C7_counterexample :
    (PrecalculatedAveragine.build 2 1 1 (fun _ => [1, 1]) 10).entries = [] ∧
    massToIndex (PrecalculatedAveragine.build 2 1 1 (fun _ => [1, 1]) 10) 5 = 3 ∧
    (PrecalculatedAveragine.build 2 1 1 (fun _ => [1, 1]) 10).get? 5 = none := by
  have he : (PrecalculatedAveragine.build 2 1 1 (fun _ => [1, 1]) 10).entries = [] := by
    norm_num [PrecalculatedAveragine.build, gridMasses]
  have hr : roundHalfAway ((3 : ℚ)) = 3 := by norm_num [roundHalfAway]
  have hi : massToIndex (PrecalculatedAveragine.build 2 1 1 (fun _ => [1, 1]) 10) 5 = 3 := by
    norm_num [massToIndex, PrecalculatedAveragine.build, gridMasses, sizeSubOne, hr]
    decide
  exact ⟨he, hi, by simp [PrecalculatedAveragine.get?, he]⟩

/-- C7 amended.  For every configuration with `maxMass < minMass` (and any
positive grid step), the constructor is not rejected but yields an empty
template table, and every subsequent `get(mass)` lookup is out of range. -/
theorem claim_C7_amended (minM maxM delta : ℚ) (gen : ℚ → List ℚ) (fuel : ℕ)
    (h : maxM < minM) :
    (PrecalculatedAveragine.build minM maxM delta gen fuel).entries = [] ∧
    ∀ mass, (PrecalculatedAveragine.build minM maxM delta gen fuel).get? mass = none := by
  have hg : gridMasses minM maxM delta fuel 0 = [] := gridMasses_eq_nil h fuel 0
  have he : (PrecalculatedAveragine.build minM maxM delta gen fuel).entries = [] := by
    rw [PrecalculatedAveragine.build, hg]; rfl
  refine ⟨he, fun mass => ?_⟩
  rw [PrecalculatedAveragine.get?, he]
  exact List.get?_nil

/-- Witness for C7 amended, at the concrete configuration of the
counterexample. -/
theorem claim_C7_amended_witness :
    (PrecalculatedAveragine.build 2 1 1 (fun _ => [1, 1]) 10).entries = [] ∧
    ∀ mass, (PrecalculatedAveragine.build 2 1 1 (fun _ => [1, 1]) 10).get? mass = none :=
  claim_C7_amended 2 1 1 (fun _ => [1, 1]) 10 (by norm_num)

/-- Anatomy of a successful `processTrace`: unfolds the source-ordered gates
of `MassFeatureTrace::findFeatures` (lines 139-159) for a trace that was
emitted. -/
theorem processTrace_emitted (P : FTParams) (E : TraceExternals)
    (mt : List (ℚ × TracePG)) (f : Feature) (h : processTrace P E mt = some f) :
    0 < maxIntensityMassDiff (mt.map Prod.snd) ∧
    f.chargeScore = E.chargeFit (perChargeVec P (mt.map Prod.snd)) ∧
    f.isoScore = (E.isoCosine (E.centroid mt) (perIsotopeVec P (mt.map Prod.snd))).1 ∧
    P.minChargeCosine ≤ f.chargeScore ∧ P.minIsotopeCosine ≤ f.isoScore ∧
    f.monoMass < f.avgMass := by
  match mt with
  | [] => exact absurd h (by rw [processTrace]; exact Option.noConfusion)
  | first :: rest =>
    rw [processTrace] at h
    by_cases h1 : maxIntensityMassDiff ((first :: rest).map Prod.snd) ≤ 0
    · rw [if_pos h1] at h; exact absurd h (by exact Option.noConfusion)
    · rw [if_neg h1] at h
      by_cases h2 : E.chargeFit (perChargeVec P ((first :: rest).map Prod.snd)) <
          P.minChargeCosine
      · rw [if_pos h2] at h; exact absurd h (by exact Option.noConfusion)
      · rw [if_neg h2] at h
        by_cases h3 : (E.isoCosine (E.centroid (first :: rest))
            (perIsotopeVec P ((first :: rest).map Prod.snd))).1 < P.minIsotopeCosine
        · rw [if_pos h3] at h; exact absurd h (by exact Option.noConfusion)
        · rw [if_neg h3] at h
          have hf := Option.some.inj h
          subst hf
          refine ⟨not_le.mp h1, rfl, rfl, not_lt.mp h2, not_lt.mp h3, ?_⟩
          show _ < _ + maxIntensityMassDiff ((first :: rest).map Prod.snd)
          exact lt_add_of_pos_right _ (not_le.mp h1)

/-- A trace whose charge-fit or isotope-cosine score is below its threshold
is dropped by `processTrace` (lines 144-159). -/
theorem processTrace_rejected (P : FTParams) (E : TraceExternals)
    (mt : List (ℚ × TracePG))
    (h : E.chargeFit (perChargeVec P (mt.map Prod.snd)) < P.minChargeCosine ∨
      (E.isoCosine (E.centroid mt) (perIsotopeVec P (mt.map Prod.snd))).1 <
        P.minIsotopeCosine) :
    processTrace P E mt = none := by
  match mt with
  | [] => rfl
  | first :: rest =>
    rw [processTrace]
    by_cases h1 : maxIntensityMassDiff ((first :: rest).map Prod.snd) ≤ 0
    · rw [if_pos h1]
    · rw [if_neg h1]
      rcases h with h2 | h3
      · rw [if_pos h2]
      · by_cases h2 : E.chargeFit (perChargeVec P ((first :: rest).map Prod.snd)) <
            P.minChargeCosine
        · rw [if_pos h2]
        · rw [if_neg h2, if_pos h3]

/-- C3.  A trace is emitted by `findFeatures` only if its aggregated
per-charge vector scores at least `minChargeCosine` under the charge-fit
function and its aggregated per-isotope vector scores at least
`minIsotopeCosine` under the isotope-cosine function; every trace below
either threshold is dropped silently — `processTrace` returns `none`, the
model is total, and the remaining traces are unaffected
(`MassFeatureTrace.cpp` lines 144-159). -/
theorem claim_C3 (P : FTParams) (E : TraceExternals)
    (traces : List (List (ℚ × TracePG))) :
    (∀ f ∈ findFeaturesOut P E traces, ∃ mt ∈ traces,
      processTrace P E mt = some f ∧
      f.chargeScore = E.chargeFit (perChargeVec P (mt.map Prod.snd)) ∧
      f.isoScore = (E.isoCosine (E.centroid mt) (perIsotopeVec P (mt.map Prod.snd))).1 ∧
      P.minChargeCosine ≤ f.chargeScore ∧ P.minIsotopeCosine ≤ f.isoScore) ∧
    (∀ mt, (E.chargeFit (perChargeVec P (mt.map Prod.snd)) < P.minChargeCosine ∨
      (E.isoCosine (E.centroid mt) (perIsotopeVec P (mt.map Prod.snd))).1 <
        P.minIsotopeCosine) →
      processTrace P E mt = none) := by
  constructor
  · intro f hf
    rw [findFeaturesOut, List.mem_filterMap] at hf
    rcases hf with ⟨mt, hmt, hp⟩
    have h := processTrace_emitted P E mt f hp
    exact ⟨mt, hmt, hp, h.2.1, h.2.2.1, h.2.2.2.1, h.2.2.2.2.1⟩
  · intro mt h
    exact processTrace_rejected P E mt h

/-- Witness for C3: with a constant charge-fit score 0 and threshold 1, the
trace is rejected and produces no output row. -/
theorem claim_C3_witness :
    (⟨fun _ => 0, fun _ _ => (0, 0), fun _ => 0, 1⟩ : TraceExternals).chargeFit
        (perChargeVec ⟨1, 2, 3, 1, 0⟩
          ([(5, ⟨100, 101, 1, 17, 18, []⟩)].map Prod.snd)) <
      (⟨1, 2, 3, 1, 0⟩ : FTParams).minChargeCosine ∧
    processTrace ⟨1, 2, 3, 1, 0⟩ ⟨fun _ => 0, fun _ _ => (0, 0), fun _ => 0, 1⟩
      [(5, ⟨100, 101, 1, 17, 18, []⟩)] = none := by
  refine ⟨by norm_num, ?_⟩
  exact (claim_C3 ⟨1, 2, 3, 1, 0⟩ ⟨fun _ => 0, fun _ _ => (0, 0), fun _ => 0, 1⟩
    [[(5, ⟨100, 101, 1, 17, 18, []⟩)]]).2 [(5, ⟨100, 101, 1, 17, 18, []⟩)]
    (Or.inl (by norm_num))

/-- C10 (implicit).  Every feature emitted by `findFeatures` has
`avgMass > monoisotopicMass` for the trace's highest-intensity member
(`massDiff > 0`, hence also `f.monoMass < f.avgMass`); a trace whose
maximum-intensity member has `avgMass - monoisotopicMass <= 0` is skipped
at line 139-142, before any scoring, whatever the scoring functions and
thresholds are. -/
theorem claim_C10 (P : FTParams) (E : TraceExternals)
    (traces : List (List (ℚ × TracePG))) :
    (∀ f ∈ findFeaturesOut P E traces, ∃ mt ∈ traces,
      processTrace P E mt = some f ∧
      0 < maxIntensityMassDiff (mt.map Prod.snd) ∧ f.monoMass < f.avgMass) ∧
    (∀ (mt : List (ℚ × TracePG)), maxIntensityMassDiff (mt.map Prod.snd) ≤ 0 →
      ∀ (P2 : FTParams) (E2 : TraceExternals), processTrace P2 E2 mt = none) := by
  constructor
  · intro f hf
    rw [findFeaturesOut, List.mem_filterMap] at hf
    rcases hf with ⟨mt, hmt, hp⟩
    have h := processTrace_emitted P E mt f hp
    exact ⟨mt, hmt, hp, h.1, h.2.2.2.2.2⟩
  · intro mt hmd P2 E2
    match mt with
    | [] => rfl
    | first :: rest =>
      rw [processTrace, if_pos hmd]

/-- The total power of an intensity list is nonnegative. -/
theorem sumSq_nonneg (l : List ℚ) : 0 ≤ sumSq l := by
  rw [sumSq]
  apply List.sum_nonneg
  intro x hx
  rcases List.mem_map.mp hx with ⟨a, _, rfl⟩
  exact mul_self_nonneg a

/-- A trim deducts exactly `pwr` from the running power and counts once. -/
theorem trimStep_fields (s : TrimState) :
    (trimStep s).totalPwr = s.totalPwr - trimPwr s ∧
    (trimStep s).trimCount = s.trimCount + 1 ∧
    (trimStep s).iso.length = s.iso.length := by
  rw [trimStep]
  by_cases h : s.iso.getD s.left 0 < s.iso.getD s.right 0
  · rw [if_pos h]; exact ⟨rfl, rfl, by simp⟩
  · rw [if_neg h]; exact ⟨rfl, rfl, by simp⟩

/-- Loop invariant behind the corrected power bound: along `trimGo` the trim
count only grows, the running power stays nonnegative, and every executed
trim retains at least `min_pwr = 0.9999` of the power it started from, so
the final power is at least `0.9999 ^ (number of trims)` times the initial
one. -/
theorem trimGo_totalPwr (fuel : ℕ) :
    ∀ s : TrimState, 0 ≤ s.totalPwr →
      s.trimCount ≤ (trimGo fuel s).trimCount ∧
      0 ≤ (trimGo fuel s).totalPwr ∧
      minPwr ^ ((trimGo fuel s).trimCount - s.trimCount) * s.totalPwr ≤
        (trimGo fuel s).totalPwr := by
  induction fuel with
  | zero =>
    intro s h0
    exact ⟨le_refl _, h0, by simp [trimGo]⟩
  | succ f ih =>
    intro s h0
    rw [trimGo]
    by_cases h1 : s.iso.length - s.trimCount ≤ 2
    · rw [if_pos h1]; exact ⟨le_refl _, h0, by simp⟩
    rw [if_neg h1]
    by_cases h2 : s.right ≤ s.left
    · rw [if_pos h2]; exact ⟨le_refl _, h0, by simp⟩
    rw [if_neg h2]
    by_cases h3 : s.totalPwr - trimPwr s < s.totalPwr * minPwr
    · rw [if_pos h3]; exact ⟨le_refl _, h0, by simp⟩
    rw [if_neg h3]
    have hpw : s.totalPwr * minPwr ≤ s.totalPwr - trimPwr s := not_lt.mp h3
    obtain ⟨hP, hC, _⟩ := trimStep_fields s
    have hmp : (0 : ℚ) ≤ minPwr := by rw [minPwr]; norm_num
    have h0s : 0 ≤ (trimStep s).totalPwr := by
      rw [hP]
      calc (0 : ℚ) ≤ s.totalPwr * minPwr := mul_nonneg h0 hmp
        _ ≤ s.totalPwr - trimPwr s := hpw
    obtain ⟨hc, hnn, hb⟩ := ih (trimStep s) h0s
    refine ⟨?_, hnn, ?_⟩
    · calc s.trimCount ≤ s.trimCount + 1 := Nat.le_succ _
        _ = (trimStep s).trimCount := hC.symm
        _ ≤ _ := hc
    · have hk : (trimGo f (trimStep s)).trimCount - s.trimCount =
          ((trimGo f (trimStep s)).trimCount - (trimStep s).trimCount) + 1 := by
        rw [hC] at hc ⊢; omega
      rw [hk, pow_succ]
      have hstep : minPwr * s.totalPwr ≤ (trimStep s).totalPwr := by
        rw [hP, mul_comm]
        exact hpw
      calc minPwr ^ ((trimGo f (trimStep s)).trimCount - (trimStep s).trimCount) *
            minPwr * s.totalPwr
          = minPwr ^ ((trimGo f (trimStep s)).trimCount - (trimStep s).trimCount) *
            (minPwr * s.totalPwr) := by ring
        _ ≤ minPwr ^ ((trimGo f (trimStep s)).trimCount - (trimStep s).trimCount) *
            (trimStep s).totalPwr :=
          mul_le_mul_of_nonneg_left hstep (pow_nonneg hmp _)
        _ ≤ _ := hb

/-- Loop invariant behind the untrimmed-count bound: the loop only trims
while more than `min_iso_length = 2` intensities remain untrimmed. -/
theorem trimGo_trimCount_le (fuel : ℕ) :
    ∀ s : TrimState, s.trimCount + 2 ≤ s.iso.length →
      (trimGo fuel s).trimCount + 2 ≤ (trimGo fuel s).iso.length := by
  induction fuel with
  | zero => intro s h; rw [trimGo]; exact h
  | succ f ih =>
    intro s h
    rw [trimGo]
    by_cases h1 : s.iso.length - s.trimCount ≤ 2
    · rw [if_pos h1]; exact h
    rw [if_neg h1]
    by_cases h2 : s.right ≤ s.left
    · rw [if_pos h2]; exact h
    rw [if_neg h2]
    by_cases h3 : s.totalPwr - trimPwr s < s.totalPwr * minPwr
    · rw [if_pos h3]; exact h
    rw [if_neg h3]
    obtain ⟨_, hC, hL⟩ := trimStep_fields s
    exact ih (trimStep s) (by rw [hC, hL]; omega)

/-- The trimming loop never changes the number of stored intensities (only
`setIntensity(0)` is applied). -/
theorem trimGo_isoLength (fuel : ℕ) :
    ∀ s : TrimState, (trimGo fuel s).iso.length = s.iso.length := by
  induction fuel with
  | zero => intro s; rw [trimGo]
  | succ f ih =>
    intro s
    rw [trimGo]
    by_cases h1 : s.iso.length - s.trimCount ≤ 2
    · rw [if_pos h1]
    rw [if_neg h1]
    by_cases h2 : s.right ≤ s.left
    · rw [if_pos h2]
    rw [if_neg h2]
    by_cases h3 : s.totalPwr - trimPwr s < s.totalPwr * minPwr
    · rw [if_pos h3]
    rw [if_neg h3]
    rw [ih (trimStep s)]
    exact (trimStep_fields s).2.2

/-- The per-apex counts stored for every table entry are clamped to at least
`min_left_right_count = 2` (lines 133-134). -/
theorem mkEntry_counts (iso : List ℚ) :
    2 ≤ (mkEntry iso).leftCountFromApex ∧ 2 ≤ (mkEntry iso).rightCountFromApex := by
  rw [mkEntry]
  constructor
  · by_cases h : ((mostAbundant iso).2 : ℤ) - ((trimIsotopes iso).left : ℤ) < 2
    · simp [h]
    · simp [h]; omega
  · by_cases h : (((trimIsotopes iso).right : ℤ)) - ((mostAbundant iso).2 : ℤ) < 2
    · simp [h]
    · simp [h]; omega

/-- C2 amended.  For every grid mass processed during construction: (i) every
executed trim retains at least 99.99% of the THEN-REMAINING power, so after
`k` trims at least `0.9999 ^ k` of the original total squared-intensity
power remains (which can dip below 99.99% of the original when `k >= 2`);
(ii) when the distribution has at least 2 isotopes, at least 2 stay
untrimmed; and (iii) `getLeftCountFromApex`/`getRightCountFromApex` return
at least 2 for every query mass answered from the table. -/
theorem claim_C2_amended (minM maxM delta : ℚ) (gen : ℚ → List ℚ) (fuel : ℕ) :
    (∀ m ∈ gridMasses minM maxM delta fuel 0,
      minPwr ^ (trimIsotopes (gen m)).trimCount * sumSq (gen m) ≤
        (trimIsotopes (gen m)).totalPwr ∧
      (2 ≤ (gen m).length →
        (trimIsotopes (gen m)).trimCount + 2 ≤ (gen m).length)) ∧
    (∀ mass v,
      getLeftCountFromApex? (PrecalculatedAveragine.build minM maxM delta gen fuel)
        mass = some v → 2 ≤ v) ∧
    (∀ mass v,
      getRightCountFromApex? (PrecalculatedAveragine.build minM maxM delta gen fuel)
        mass = some v → 2 ≤ v) := by
  have hentry : ∀ e ∈ (PrecalculatedAveragine.build minM maxM delta gen fuel).entries,
      2 ≤ e.leftCountFromApex ∧ 2 ≤ e.rightCountFromApex := by
    intro e he
    rw [PrecalculatedAveragine.build] at he
    rcases List.mem_map.mp he with ⟨m, _, rfl⟩
    exact mkEntry_counts (gen m)
  refine ⟨fun m _ => ⟨?_, fun hlen => ?_⟩, fun mass v hv => ?_, fun mass v hv => ?_⟩
  · have h := trimGo_totalPwr (gen m).length
      ⟨0, (gen m).length - 1, 0, sumSq (gen m), gen m⟩ (sumSq_nonneg (gen m))
    rw [trimIsotopes]
    exact h.2.2
  · have h := trimGo_trimCount_le (gen m).length
      ⟨0, (gen m).length - 1, 0, sumSq (gen m), gen m⟩ (by simpa using hlen)
    rw [trimIsotopes]
    exact le_trans h (le_of_eq (trimGo_isoLength (gen m).length _))
  · rw [getLeftCountFromApex?] at hv
    rcases Option.map_eq_some'.mp hv with ⟨e, hget, rfl⟩
    exact (hentry e (List.get?_mem hget)).1
  · rw [getRightCountFromApex?] at hv
    rcases Option.map_eq_some'.mp hv with ⟨e, hget, rfl⟩
    exact (hentry e (List.get?_mem hget)).2

/-- The C `round` is nonnegative on nonnegative input. -/
theorem roundHalfAway_nonneg {x : ℚ} (h : 0 ≤ x) : 0 ≤ roundHalfAway x := by
  rw [roundHalfAway, if_pos h]
  exact Int.floor_nonneg.mpr (by linarith)

/-- The C `round` is nonpositive on negative input. -/
theorem roundHalfAway_nonpos {x : ℚ} (h : x < 0) : roundHalfAway x ≤ 0 := by
  rw [roundHalfAway, if_neg (not_le.mpr h)]
  have : 0 ≤ ⌊-x + 1/2⌋ := Int.floor_nonneg.mpr (by linarith)
  omega

/-- Rounding half away from zero lands within 1/2 of the argument. -/
theorem roundHalfAway_dist (x : ℚ) : |(roundHalfAway x : ℚ) - x| ≤ 1/2 := by
  rw [roundHalfAway]
  by_cases h : 0 ≤ x
  · rw [if_pos h]
    have h1 := Int.floor_le (x + 1/2)
    have h2 := Int.lt_floor_add_one (x + 1/2)
    rw [abs_le]
    constructor <;> linarith
  · rw [if_neg h]
    have h1 := Int.floor_le (-x + 1/2)
    have h2 := Int.lt_floor_add_one (-x + 1/2)
    rw [abs_le]
    push_cast
    constructor <;> linarith

/-- Rounding half away from zero yields a nearest integer. -/
theorem roundHalfAway_nearest (x : ℚ) (z : ℤ) :
    |(roundHalfAway x : ℚ) - x| ≤ |(z : ℚ) - x| := by
  rcases eq_or_ne z (roundHalfAway x) with rfl | hne
  · exact le_refl _
  · have h0 : (1 : ℤ) ≤ |z - roundHalfAway x| := Int.one_le_abs (sub_ne_zero.mpr hne)
    have h1 : (1 : ℚ) ≤ |(z : ℚ) - (roundHalfAway x : ℚ)| := by
      have h0q : ((1 : ℤ) : ℚ) ≤ ((|z - roundHalfAway x| : ℤ) : ℚ) := by
        exact_mod_cast h0
      push_cast at h0q
      linarith
    have h2 := roundHalfAway_dist x
    have h3 : |(z : ℚ) - (roundHalfAway x : ℚ)| ≤
        |(z : ℚ) - x| + |x - (roundHalfAway x : ℚ)| := abs_sub_le _ _ _
    rw [abs_sub_comm x] at h3
    linarith

/-- The `size_t` expression `n - 1` computes the plain `n - 1` for any
nonempty table of realistic size. -/
theorem sizeSubOne_eq {n : ℕ} (h1 : 1 ≤ n) (h2 : n < 2 ^ 64) :
    sizeSubOne n = n - 1 := by
  have hp : (2 : ℕ) ^ 64 = 18446744073709551616 := by norm_num
  rw [sizeSubOne, hp]
  rw [hp] at h2
  omega

/-- Nearest-index property of the spec's round-then-clamp formula: among the
indices `0 .. n-1` of a unit-spaced grid, the clamped rounding of `x` is a
closest one to `x`. -/
theorem clampRound_nearest (x : ℚ) (n : ℕ) (hn : 1 ≤ n) (j : ℕ) (hj : j < n) :
    |(((min (max (roundHalfAway x) 0) ((n : ℤ) - 1)).toNat : ℕ) : ℚ) - x| ≤
      |(j : ℚ) - x| := by
  have hjq : ((j : ℚ)) ≤ (n : ℚ) - 1 := by
    have : (j : ℚ) + 1 ≤ (n : ℚ) := by exact_mod_cast hj
    linarith
  have hj0 : (0 : ℚ) ≤ (j : ℚ) := Nat.cast_nonneg j
  have hd := roundHalfAway_dist x
  rcases lt_or_le (roundHalfAway x) 0 with hr | hr
  · have hc : min (max (roundHalfAway x) 0) ((n : ℤ) - 1) = 0 := by omega
    rw [hc]
    have hx : x ≤ -(1/2) := by
      have hr1 : roundHalfAway x ≤ -1 := by omega
      have hr1q : (roundHalfAway x : ℚ) ≤ -1 := by exact_mod_cast hr1
      rw [abs_le] at hd
      linarith
    rw [show ((0 : ℤ).toNat : ℚ) = 0 from by norm_num]
    rw [abs_of_nonneg (by linarith), abs_of_nonneg (by linarith)]
    linarith
  rcases le_or_lt (n : ℤ) (roundHalfAway x) with hr2 | hr2
  · have hc : min (max (roundHalfAway x) 0) ((n : ℤ) - 1) = (n : ℤ) - 1 := by omega
    rw [hc]
    have hx : (n : ℚ) - 1/2 ≤ x := by
      have hrn : (n : ℚ) ≤ (roundHalfAway x : ℚ) := by exact_mod_cast hr2
      rw [abs_le] at hd
      linarith
    have hcast : ((((n : ℤ) - 1).toNat : ℕ) : ℚ) = (n : ℚ) - 1 := by
      have : ((n : ℤ) - 1).toNat = n - 1 := by omega
      rw [this]
      push_cast [hn]
      ring
    rw [hcast]
    rw [abs_of_nonpos (by linarith), abs_of_nonpos (by linarith)]
    linarith
  · have hc : min (max (roundHalfAway x) 0) ((n : ℤ) - 1) = roundHalfAway x := by omega
    rw [hc]
    have hcast : (((roundHalfAway x).toNat : ℕ) : ℚ) = (roundHalfAway x : ℚ) := by
      have := Int.toNat_of_nonneg hr
      exact_mod_cast congrArg (fun z : ℤ => (z : ℚ)) this
    rw [hcast]
    have := roundHalfAway_nearest x (j : ℤ)
    push_cast at this
    exact this

/-- Once the grid-mass loop has reached the emission phase
(`minMass <= i * delta`, so `continue` no longer fires), the emitted masses
are consecutive grid multiples. -/
theorem gridMasses_getD_emit {minM maxM delta : ℚ} (hd : 0 < delta) :
    ∀ (fuel : ℕ) (i : ℕ), minM ≤ (i : ℚ) * delta →
      ∀ j, j < (gridMasses minM maxM delta fuel i).length →
        (gridMasses minM maxM delta fuel i).getD j 0 = ((i + j : ℕ) : ℚ) * delta := by
  intro fuel
  induction fuel with
  | zero =>
    intro i _ j hj
    simp [gridMasses] at hj
  | succ f ih =>
    intro i hi j hj
    have hstep : minM ≤ ((i + 1 : ℕ) : ℚ) * delta := by
      have hexp : ((i + 1 : ℕ) : ℚ) * delta = (i : ℚ) * delta + delta := by
        push_cast; ring
      rw [hexp]; linarith
    simp only [gridMasses] at hj ⊢
    rw [if_neg (not_lt.mpr hi)] at hj ⊢
    by_cases hmax : (i : ℚ) * delta > maxM
    · rw [if_pos hmax] at hj
      exact absurd hj (by simp)
    · rw [if_neg hmax] at hj ⊢
      cases j with
      | zero => simp
      | succ j =>
        rw [List.getD_cons_succ]
        rw [List.length_cons] at hj
        rw [ih (i + 1) hstep j (Nat.lt_of_succ_lt_succ hj)]
        congr 1
        push_cast
        ring

/-- Full characterisation of the emitted grid: when `minMass` itself lies on
the grid (`minMass = k * delta`), the loop skips exactly the indices below
`k` and the `j`-th stored entry corresponds to grid mass
`minMass + j * delta`. -/
theorem gridMasses_getD_full {minM maxM delta : ℚ} (hd : 0 < delta) (k : ℕ)
    (hmin : minM = (k : ℚ) * delta) :
    ∀ (fuel : ℕ) (i : ℕ), i ≤ k →
      ∀ j, j < (gridMasses minM maxM delta fuel i).length →
        (gridMasses minM maxM delta fuel i).getD j 0 = ((k + j : ℕ) : ℚ) * delta := by
  intro fuel
  induction fuel with
  | zero =>
    intro i _ j hj
    simp [gridMasses] at hj
  | succ f ih =>
    intro i hik j hj
    by_cases hc : (i : ℚ) * delta < minM
    · have hik2 : i + 1 ≤ k := by
        rcases Nat.lt_or_ge i k with h | h
        · omega
        · exfalso
          have hle : (k : ℚ) * delta ≤ (i : ℚ) * delta :=
            mul_le_mul_of_nonneg_right (by exact_mod_cast h) hd.le
          rw [← hmin] at hle
          linarith
      simp only [gridMasses] at hj ⊢
      rw [if_pos hc] at hj ⊢
      exact ih (i + 1) hik2 j hj
    · have hik3 : i = k := by
        rcases Nat.eq_or_lt_of_le hik with h | h
        · exact h
        · exfalso
          have hlt : (i : ℚ) * delta < (k : ℚ) * delta :=
            mul_lt_mul_of_pos_right (by exact_mod_cast h) hd
          rw [← hmin] at hlt
          exact hc hlt
      subst hik3
      exact gridMasses_getD_emit hd (f + 1) i (le_of_eq hmin) j hj

/-- The source index formula of `massToIndex_` coincides with the spec's
round-then-clamp formula on every query mass (positive grid step, nonempty
table of realistic size). -/
theorem massToIndex_eq_spec (A : PrecalculatedAveragine) (mass : ℚ)
    (hd : 0 < A.massInterval) (hn : 1 ≤ A.entries.length)
    (hsz : A.entries.length < 2 ^ 64) :
    massToIndex A mass =
      specClampRoundIndex A.minMass A.massInterval A.entries.length mass := by
  simp only [massToIndex, specClampRoundIndex, sizeSubOne_eq hn hsz]
  by_cases h : 0 ≤ mass - A.minMass
  · rw [max_eq_right h]
    have hr : 0 ≤ roundHalfAway ((mass - A.minMass) / A.massInterval) :=
      roundHalfAway_nonneg (div_nonneg h hd.le)
    rw [max_eq_left hr]
    omega
  · rw [max_eq_left (le_of_lt (not_le.mp h)), zero_div]
    have h0 : roundHalfAway 0 = 0 := by
      rw [roundHalfAway, if_pos (le_refl 0)]
      norm_num
    rw [h0]
    have hr : roundHalfAway ((mass - A.minMass) / A.massInterval) ≤ 0 :=
      roundHalfAway_nonpos (div_neg_of_neg_of_pos (not_le.mp h) hd)
    rw [max_eq_right hr]
    omega

/-- C1 amended.  `get(mass)` returns the template at index
`clamp(round((mass - minMass) / massStep))` — the source formula and the
spec formula agree for every query mass — and, WHEN `minMass` itself lies on
the mass grid (`minMass = k * massStep`), that index is one whose grid mass
is nearest to the query among all stored templates.  (The counterexample
shows the nearest-template reading fails when `minMass` is off-grid, because
the formula measures from `minMass` while entries start at the first grid
multiple at or above it.) -/
theorem claim_C1_amended (minM maxM delta : ℚ) (gen : ℚ → List ℚ) (fuel : ℕ) (mass : ℚ)
    (hd : 0 < delta)
    (hn : 1 ≤ (PrecalculatedAveragine.build minM maxM delta gen fuel).entries.length)
    (hsz : (PrecalculatedAveragine.build minM maxM delta gen fuel).entries.length < 2 ^ 64) :
    massToIndex (PrecalculatedAveragine.build minM maxM delta gen fuel) mass =
      specClampRoundIndex minM delta
        (PrecalculatedAveragine.build minM maxM delta gen fuel).entries.length mass ∧
    ∀ k : ℕ, minM = (k : ℚ) * delta →
      ∀ j, j < (gridMasses minM maxM delta fuel 0).length →
        |(gridMasses minM maxM delta fuel 0).getD
            (massToIndex (PrecalculatedAveragine.build minM maxM delta gen fuel) mass) 0
          - mass| ≤
        |(gridMasses minM maxM delta fuel 0).getD j 0 - mass| := by
  have heq := massToIndex_eq_spec (PrecalculatedAveragine.build minM maxM delta gen fuel)
    mass hd hn hsz
  have hlen : (PrecalculatedAveragine.build minM maxM delta gen fuel).entries.length =
      (gridMasses minM maxM delta fuel 0).length := by
    rw [PrecalculatedAveragine.build]
    exact List.length_map _ _
  refine ⟨heq, ?_⟩
  intro k hk j hj
  have hn1 : 1 ≤ (gridMasses minM maxM delta fuel 0).length := by omega
  have hpm : (PrecalculatedAveragine.build minM maxM delta gen fuel).minMass = minM := rfl
  have hpd : (PrecalculatedAveragine.build minM maxM delta gen fuel).massInterval =
      delta := rfl
  have hidx : massToIndex (PrecalculatedAveragine.build minM maxM delta gen fuel) mass =
      (min (max (roundHalfAway ((mass - minM) / delta)) 0)
        (((gridMasses minM maxM delta fuel 0).length : ℤ) - 1)).toNat := by
    rw [heq]
    simp only [specClampRoundIndex]
    rw [hpm, hpd, hlen]
  have hcn : massToIndex (PrecalculatedAveragine.build minM maxM delta gen fuel) mass <
      (gridMasses minM maxM delta fuel 0).length := by
    rw [hidx]
    omega
  rw [gridMasses_getD_full hd k hk fuel 0 (Nat.zero_le k) _ hcn,
    gridMasses_getD_full hd k hk fuel 0 (Nat.zero_le k) j hj]
  have hmass : mass = (k : ℚ) * delta + ((mass - minM) / delta) * delta := by
    rw [div_mul_cancel₀ _ (ne_of_gt hd), ← hk]
    ring
  have hcq : ∀ c : ℕ, ((k + c : ℕ) : ℚ) * delta - mass =
      ((c : ℚ) - (mass - minM) / delta) * delta := by
    intro c
    conv_lhs => rw [hmass]
    push_cast
    ring
  rw [hcq, hcq, abs_mul, abs_mul, abs_of_pos hd]
  refine mul_le_mul_of_nonneg_right ?_ hd.le
  rw [hidx]
  exact clampRound_nearest ((mass - minM) / delta)
    (gridMasses minM maxM delta fuel 0).length hn1 j hj

/-- C1 counterexample.  With `minMass = 3/2` (not on the unit grid),
`maxMass = 3`, `massStep = 1`, the stored templates correspond to grid
masses `[2, 3]`; the query mass 2 computes
`index = round(max(0, 2 - 3/2) / 1) = round(0.5) = 1` and `get` returns the
template of grid mass 3 (distance 1) although the template of grid mass 2
(distance 0) is stored — the "nearest template" reading of the claim is
false. -/
theorem claim_C1_counterexample :
    gridMasses (3/2) 3 1 10 0 = [2, 3] ∧
    massToIndex (PrecalculatedAveragine.build (3/2) 3 1 (fun _ => [1, 1]) 10) 2 = 1 ∧
    |(gridMasses (3/2) 3 1 10 0).getD 1 0 - 2| >
      |(gridMasses (3/2) 3 1 10 0).getD 0 0 - 2| := by
  have hg : gridMasses (3/2) 3 1 10 0 = [2, 3] := by norm_num [gridMasses]
  have hr : roundHalfAway ((1 : ℚ)/2) = 1 := by norm_num [roundHalfAway]
  refine ⟨hg, ?_, ?_⟩
  · norm_num [massToIndex, PrecalculatedAveragine.build, gridMasses, sizeSubOne, hr]
  · rw [hg]
    norm_num

/-- Witness for C1 amended at a concrete on-grid configuration
(`minMass = 2 = 2 * 1`, `maxMass = 4`, `massStep = 1`, query mass `5/2`):
the formula equality holds, and the selected entry is nearest on the grid
`[2, 3, 4]` (both entries 0 and 1 are at distance 1/2 from `5/2`; the
formula selects index 1). -/
theorem claim_C1_witness :
    (massToIndex (PrecalculatedAveragine.build 2 4 1 (fun _ => [1, 1]) 10) (5/2) =
      specClampRoundIndex 2 1
        (PrecalculatedAveragine.build 2 4 1 (fun _ => [1, 1]) 10).entries.length (5/2)) ∧
    (∀ j, j < (gridMasses 2 4 1 10 0).length →
      |(gridMasses 2 4 1 10 0).getD
          (massToIndex (PrecalculatedAveragine.build 2 4 1 (fun _ => [1, 1]) 10) (5/2)) 0
        - 5/2| ≤
      |(gridMasses 2 4 1 10 0).getD j 0 - 5/2|) := by
  have hn : 1 ≤ (PrecalculatedAveragine.build 2 4 1 (fun _ => [1, 1]) 10).entries.length := by
    norm_num [PrecalculatedAveragine.build, gridMasses]
  have hsz : (PrecalculatedAveragine.build 2 4 1 (fun _ => [1, 1]) 10).entries.length <
      2 ^ 64 := by
    norm_num [PrecalculatedAveragine.build, gridMasses]
  have h := claim_C1_amended 2 4 1 (fun _ => [1, 1]) 10 (5/2) (by norm_num) hn hsz
  exact ⟨h.1, h.2 2 (by norm_num)⟩

/-- Summing the per-charge bins over three identical members triples each
bin. -/
theorem chargeBinSum_three (P : FTParams) (pg : TracePG) (c : ℤ) :
    chargeBinSum P [pg, pg, pg] c = 3 * chargeBinSum P [pg] c := by
  simp [chargeBinSum]
  ring

/-- Summing the per-isotope bins over three identical members triples each
bin. -/
theorem isotopeBinSum_three (P : FTParams) (pg : TracePG) (i : ℤ) :
    isotopeBinSum P [pg, pg, pg] i = 3 * isotopeBinSum P [pg] i := by
  simp [isotopeBinSum]
  ring

/-- The aggregated per-charge vector of three identical members is the
single-member vector scaled by 3. -/
theorem perChargeVec_three (P : FTParams) (pg : TracePG) :
    perChargeVec P [pg, pg, pg] = (perChargeVec P [pg]).map (fun a => 3 * a) := by
  rw [perChargeVec, perChargeVec, List.map_map]
  congr 1
  funext c
  exact chargeBinSum_three P pg (c : ℤ)

/-- The aggregated per-isotope vector of three identical members is the
single-member vector scaled by 3. -/
theorem perIsotopeVec_three (P : FTParams) (pg : TracePG) :
    perIsotopeVec P [pg, pg, pg] = (perIsotopeVec P [pg]).map (fun a => 3 * a) := by
  rw [perIsotopeVec, perIsotopeVec, List.map_map]
  congr 1
  funext i
  exact isotopeBinSum_three P pg (i : ℤ)

/-- The maximum-intensity scan over three identical members takes the mass
difference of that member (the first strict improvement wins; the later
identical members do not displace it). -/
theorem maxIntensityMassDiff_three (pg : TracePG) (h : -1 < pg.intensity) :
    maxIntensityMassDiff [pg, pg, pg] = pg.avgMass - pg.monoisotopicMass := by
  rw [maxIntensityMassDiff]
  simp only [List.foldl]
  rw [if_pos h, if_neg (lt_irrefl _), if_neg (lt_irrefl _)]

/-- The retention-time bounds of an emitted feature are the RTs of the
trace's first and last members (`mt.begin()->getRT()`,
`mt.rbegin()->getRT()`, lines 173-174). -/
theorem processTrace_rt (P : FTParams) (E : TraceExternals) (first : ℚ × TracePG)
    (rest : List (ℚ × TracePG)) (f : Feature)
    (h : processTrace P E (first :: rest) = some f) :
    f.rtStart = first.1 ∧ f.rtEnd = (rest.getLastD first).1 := by
  rw [processTrace] at h
  by_cases h1 : maxIntensityMassDiff ((first :: rest).map Prod.snd) ≤ 0
  · rw [if_pos h1] at h; exact absurd h (by exact Option.noConfusion)
  · rw [if_neg h1] at h
    by_cases h2 : E.chargeFit (perChargeVec P ((first :: rest).map Prod.snd)) <
        P.minChargeCosine
    · rw [if_pos h2] at h; exact absurd h (by exact Option.noConfusion)
    · rw [if_neg h2] at h
      by_cases h3 : (E.isoCosine (E.centroid (first :: rest))
          (perIsotopeVec P ((first :: rest).map Prod.snd))).1 < P.minIsotopeCosine
      · rw [if_pos h3] at h; exact absurd h (by exact Option.noConfusion)
      · rw [if_neg h3] at h
        have hf := Option.some.inj h
        subst hf
        exact ⟨rfl, rfl⟩

/-- C4 (trace detection modelled from the spec; the scoring functions and
the centroid are abstract, constrained only by the cosine property the claim
itself invokes — invariance under positive scaling).  Three spectra at RT
50, 55, 61 carrying the identical `PeakGroup` produce exactly one trace and
exactly one feature, with `rtStart = 50`, `rtEnd = 61`, and charge/isotope
scores equal to the single-spectrum scores, because the aggregated vectors
are the single-spectrum vectors scaled by 3. -/
theorem claim_C4 (P : FTParams) (E : TraceExternals) (pg : TracePG) (tol minSpan : ℚ)
    (hmass : 0 < pg.monoisotopicMass) (htol : 0 ≤ tol) (hspan : minSpan ≤ 11)
    (hint : 0 < pg.intensity) (hmd : 0 < pg.avgMass - pg.monoisotopicMass)
    (hcf : ∀ (c : ℚ) (v : List ℚ), 0 < c →
      E.chargeFit (v.map (fun a => c * a)) = E.chargeFit v)
    (hic : ∀ (c : ℚ) (m : ℚ) (v : List ℚ), 0 < c →
      E.isoCosine m (v.map (fun a => c * a)) = E.isoCosine m v)
    (hcen : E.centroid [(50, pg), (55, pg), (61, pg)] = pg.monoisotopicMass)
    (hth1 : P.minChargeCosine ≤ E.chargeFit (perChargeVec P [pg]))
    (hth2 : P.minIsotopeCosine ≤
      (E.isoCosine pg.monoisotopicMass (perIsotopeVec P [pg])).1) :
    ∃ f : Feature,
      findFeaturesOut P E
        (massTraceDetect tol minSpan [(50, pg), (55, pg), (61, pg)]) = [f] ∧
      f.rtStart = 50 ∧ f.rtEnd = 61 ∧
      f.chargeScore = E.chargeFit (perChargeVec P [pg]) ∧
      f.isoScore = (E.isoCosine pg.monoisotopicMass (perIsotopeVec P [pg])).1 := by
  have hclose : ppmClose tol pg.monoisotopicMass pg.monoisotopicMass = true := by
    rw [ppmClose]
    simp only [sub_self, abs_zero, zero_mul, decide_eq_true_eq]
    exact mul_nonneg htol hmass.le
  have hgt : groupTraces tol [(50, pg), (55, pg), (61, pg)] =
      [[(50, pg), (55, pg), (61, pg)]] := by
    simp [groupTraces, hclose]
  have hspan2 : traceSpan [(50, pg), (55, pg), (61, pg)] = 11 := by
    simp [traceSpan, List.getLastD]
    norm_num
  have hdet : massTraceDetect tol minSpan [(50, pg), (55, pg), (61, pg)] =
      [[(50, pg), (55, pg), (61, pg)]] := by
    rw [massTraceDetect, hgt]
    simp [hspan2, hspan]
  have hmap : (([(50, pg), (55, pg), (61, pg)] : List (ℚ × TracePG)).map Prod.snd) =
      [pg, pg, pg] := rfl
  have hmd3 : ¬ maxIntensityMassDiff [pg, pg, pg] ≤ 0 := by
    rw [maxIntensityMassDiff_three pg (by linarith)]
    linarith
  have hcv : E.chargeFit (perChargeVec P [pg, pg, pg]) =
      E.chargeFit (perChargeVec P [pg]) := by
    rw [perChargeVec_three]
    exact hcf 3 _ (by norm_num)
  have hiv : E.isoCosine pg.monoisotopicMass (perIsotopeVec P [pg, pg, pg]) =
      E.isoCosine pg.monoisotopicMass (perIsotopeVec P [pg]) := by
    rw [perIsotopeVec_three]
    exact hic 3 _ _ (by norm_num)
  obtain ⟨f, hf⟩ : ∃ f, processTrace P E [(50, pg), (55, pg), (61, pg)] = some f := by
    rw [processTrace, hmap, hcen]
    rw [if_neg hmd3, if_neg (not_lt.mpr (by rw [hcv]; exact hth1)),
      if_neg (not_lt.mpr (by rw [hiv]; exact hth2))]
    exact ⟨_, rfl⟩
  have hrt := processTrace_rt P E (50, pg) [(55, pg), (61, pg)] f hf
  have hem := processTrace_emitted P E [(50, pg), (55, pg), (61, pg)] f hf
  refine ⟨f, ?_, hrt.1, by rw [hrt.2]; rfl, ?_, ?_⟩
  · rw [hdet, findFeaturesOut]
    simp [hf]
  · rw [hem.2.1, hmap, hcv]
  · rw [hem.2.2.1, hmap, hcen, hiv]

/-- Witness for C4 at the concrete PeakGroup and scoring functions, with
zero thresholds, tolerance 1 and minimum RT span 0. -/
theorem claim_C4_witness :
    ∃ f : Feature,
      findFeaturesOut ⟨1, 2, 3, 0, 0⟩ c4ext
        (massTraceDetect 1 0 [(50, c4pg), (55, c4pg), (61, c4pg)]) = [f] ∧
      f.rtStart = 50 ∧ f.rtEnd = 61 ∧
      f.chargeScore = c4ext.chargeFit (perChargeVec ⟨1, 2, 3, 0, 0⟩ [c4pg]) ∧
      f.isoScore =
        (c4ext.isoCosine c4pg.monoisotopicMass (perIsotopeVec ⟨1, 2, 3, 0, 0⟩ [c4pg])).1 :=
  claim_C4 ⟨1, 2, 3, 0, 0⟩ c4ext c4pg 1 0
    (by norm_num [c4pg]) (by norm_num) (by norm_num) (by norm_num [c4pg])
    (by norm_num [c4pg])
    (fun c v hc => rfl) (fun c m v hc => rfl) rfl
    (by norm_num [c4ext]) (by norm_num [c4ext])

/-- C2 counterexample.  A construction (grid mass 0, generator constantly
`[1, 150, 150, 2]`) where the trimming retains LESS than 99.99% of the
original total power: the original power is 45005, both boundary trims pass
the per-step check against the then-current power (`1 <= 4.5005`, then
`4 <= 4.5004`), and the retained power 45000 is below
`0.9999 * 45005 = 45000.4995`. -/
theorem claim_C2_counterexample :
    (0 : ℚ) ∈ gridMasses 0 0 1 2 0 ∧
    (trimIsotopes ((fun _ : ℚ => [1, 150, 150, 2]) 0)).totalPwr <
      minPwr * sumSq ((fun _ : ℚ => [1, 150, 150, 2]) 0) := by
  constructor
  · norm_num [gridMasses]
  · norm_num [trimIsotopes, trimGo, trimStep, trimPwr, sumSq, minPwr, List.getD]

/-- Witness for C2 amended at a concrete construction (grid mass 0,
generator constantly `[1, 2, 3, 4]`): the loop executes no trim (the first
candidate trim would already drop below 99.99% of the current power), all 4
isotopes stay, and the stored per-apex counts answered for query mass 7 are
3 (left) and the clamped 2 (right). -/
theorem claim_C2_witness :
    ((0 : ℚ) ∈ gridMasses 0 0 1 2 0) ∧
    (minPwr ^ (trimIsotopes [1, 2, 3, 4]).trimCount * sumSq [1, 2, 3, 4] ≤
      (trimIsotopes [1, 2, 3, 4]).totalPwr) ∧
    ((trimIsotopes [1, 2, 3, 4]).trimCount + 2 ≤ ([1, 2, 3, 4] : List ℚ).length) ∧
    (getLeftCountFromApex? (PrecalculatedAveragine.build 0 0 1 (fun _ => [1, 2, 3, 4]) 2)
      7 = some 3) ∧
    (getRightCountFromApex? (PrecalculatedAveragine.build 0 0 1 (fun _ => [1, 2, 3, 4]) 2)
      7 = some 2) ∧
    (2 : ℤ) ≤ 3 ∧ (2 : ℤ) ≤ 2 := by
  have hmem : (0 : ℚ) ∈ gridMasses 0 0 1 2 0 := by norm_num [gridMasses]
  have hr : roundHalfAway ((7 : ℚ)) = 7 := by norm_num [roundHalfAway]
  have hL : getLeftCountFromApex?
      (PrecalculatedAveragine.build 0 0 1 (fun _ => [1, 2, 3, 4]) 2) 7 = some 3 := by
    norm_num [getLeftCountFromApex?, massToIndex, PrecalculatedAveragine.build, gridMasses,
      sizeSubOne, hr, mkEntry, trimIsotopes, trimGo, trimStep, trimPwr, sumSq, minPwr,
      mostAbundant, List.getD, List.enum, List.enumFrom]
  have hR : getRightCountFromApex?
      (PrecalculatedAveragine.build 0 0 1 (fun _ => [1, 2, 3, 4]) 2) 7 = some 2 := by
    norm_num [getRightCountFromApex?, massToIndex, PrecalculatedAveragine.build, gridMasses,
      sizeSubOne, hr, mkEntry, trimIsotopes, trimGo, trimStep, trimPwr, sumSq, minPwr,
      mostAbundant, List.getD, List.enum, List.enumFrom]
  have h := claim_C2_amended 0 0 1 (fun _ => [1, 2, 3, 4]) 2
  have h1 := h.1 0 hmem
  exact ⟨hmem, h1.1, h1.2 (by norm_num),
    hL, hR, h.2.1 7 3 hL, h.2.2 7 2 hR⟩

/-- Witness for C10: a trace whose only member has `avgMass = monoMass`
(mass difference 0) is dropped even though the constant scoring functions
would pass the zero thresholds. -/
theorem claim_C10_witness :
    maxIntensityMassDiff ([(5, ⟨100, 100, 1, 17, 18, []⟩)].map Prod.snd) ≤ 0 ∧
    processTrace ⟨1, 2, 3, 0, 0⟩ ⟨fun _ => 1, fun _ _ => (1, 0), fun _ => 0, 1⟩
      [(5, ⟨100, 100, 1, 17, 18, []⟩)] = none := by
  have hmd : maxIntensityMassDiff
      ([((5 : ℚ), (⟨100, 100, 1, 17, 18, []⟩ : TracePG))].map Prod.snd) ≤ 0 := by
    norm_num [maxIntensityMassDiff]
  refine ⟨hmd, ?_⟩
  exact (claim_C10 ⟨1, 2, 3, 0, 0⟩ ⟨fun _ => 1, fun _ _ => (1, 0), fun _ => 0, 1⟩
    []).2 [(5, ⟨100, 100, 1, 17, 18, []⟩)] hmd
    ⟨1, 2, 3, 0, 0⟩ ⟨fun _ => 1, fun _ _ => (1, 0), fun _ => 0, 1⟩

end FLASHDeconv
